import Mathlib

/-!
Verification development for the `personalized_video` pipeline.

The Python source shells out to ffmpeg (the "media engine"); here the engine
is abstracted: silence reports, probed durations and detection callbacks are
explicit arguments, floats are modelled as rationals, the on-disk name-clip
cache is modelled as a membership predicate, and file writes are modelled as
the list of entries a function creates.  Every definition mirrors the
corresponding Python function's arithmetic and control flow.
-/

namespace Dove

/-! ## Batch split ladder (`ensure_name_clips_batch_tts`) -/

/-- The three `(noise_db, min_silence)` detection trials from
`ensure_name_clips_batch_tts`:
`[(db, dur), (db + 5.0, max(0.08, dur * 0.66)), (db + 10.0, max(0.05, dur * 0.5))]`. -/
def split_trials (db dur : ℚ) : List (ℚ × ℚ) :=
  [(db, dur), (db + 5, max (8/100) (dur * (66/100))), (db + 10, max (5/100) (dur * (1/2)))]

/-- The `for trial_db, trial_dur in split_trials` loop: run detection on each
trial in order, stop at the first whose segment count reaches `needed`; after
the last trial the (possibly still short) last result is kept. -/
def trialLoop (det : ℚ → ℚ → List (ℚ × ℚ)) (needed : ℕ) : List (ℚ × ℚ) → List (ℚ × ℚ)
  | [] => []
  | [t] => det t.1 t.2
  | t :: t2 :: ts =>
      if needed ≤ (det t.1 t.2).length then det t.1 t.2
      else trialLoop det needed (t2 :: ts)

/-- Model of `ensure_name_clips_batch_tts` at the level of cache bookkeeping:
`cached` abstracts `(cache_dir / name_cache_filename(name, key)).exists()`,
`det` abstracts `detect_nonsilent_segments` on the synthesized batch WAV, and
the result is the list of `(name, segment)` cache entries the call creates
(`Except.error` models the `RuntimeError` raise, which in the source happens
before any per-name extraction is written). -/
def ensure_name_clips_batch (cached : String → Bool) (names : List String)
    (det : ℚ → ℚ → List (ℚ × ℚ)) (split_silence_db split_silence_dur : ℚ) :
    Except String (List (String × (ℚ × ℚ))) :=
  let missing := names.filter (fun n => !cached n)
  if missing.isEmpty then .ok []
  else
    let segments := trialLoop det missing.length (split_trials split_silence_db split_silence_dur)
    if segments.length < missing.length then
      .error "Batch TTS split found fewer segments than names"
    else
      .ok (missing.zip segments)

/-! ## Gold-tier slot fitting (`build_personalized_video`, gold branch) -/

/-- Gold-mode target slot duration: `target_dur = max(0.0, speech_end - speech_start)`,
capped by `gold_max_name_seconds`, then
`target_dur = max(0.12, target_dur - max(0.0, gold_end_guard_seconds))`. -/
def gold_target_dur (speech_start speech_end gold_max_name_seconds gold_end_guard_seconds : ℚ) : ℚ :=
  let t0 := max 0 (speech_end - speech_start)
  let t1 := if gold_max_name_seconds < t0 then gold_max_name_seconds else t0
  max (12/100) (t1 - max 0 gold_end_guard_seconds)

/-- Gold-mode slot computation together with the
`if target_dur <= 0.05: raise RuntimeError(...)` degenerate-slot check. -/
def gold_fit_slot (speech_start speech_end gold_max_name_seconds gold_end_guard_seconds : ℚ) :
    Except String ℚ :=
  let t := gold_target_dur speech_start speech_end gold_max_name_seconds gold_end_guard_seconds
  if t ≤ 5/100 then .error "Gold mode detected too-short generic-name segment."
  else .ok t

/-! ## Silver-tier slot and output duration (`build_personalized_video`, silver branch) -/

/-- Silver-mode replaced slot: detected first speech segment, with the
fallbacks `(0.0, min(base_duration, max(0.2, silver_replace_seconds)))` when no
segment is detected and
`speech_end = min(base_duration, speech_start + silver_replace_seconds)` when
the detected segment is shorter than `0.12`. -/
def silver_slot (seg : Option (ℚ × ℚ)) (base_duration silver_replace_seconds : ℚ) : ℚ × ℚ :=
  match seg with
  | none => (0, min base_duration (max (2/10) silver_replace_seconds))
  | some (s, e) =>
      if e - s < 12/100 then (s, min base_duration (s + silver_replace_seconds)) else (s, e)

/-- Duration of the silver-mode output: the concatenation of the (natural
length, loudness-matched) name clip, the optional silence gap (appended only
when `silver_gap_seconds > 0`), and the base-audio suffix starting at
`speech_end`; the `loudnorm` + mp3 encode steps preserve duration. -/
def silver_output_duration (name_dur silver_gap_seconds base_duration speech_end : ℚ) : ℚ :=
  name_dur + (if 0 < silver_gap_seconds then silver_gap_seconds else 0) +
    (base_duration - speech_end)

/-! ## Non-silent segment detection (`detect_nonsilent_segments`)

The ffmpeg `silencedetect` report is abstracted as the parsed list of
`(silence_start, silence_end)` pairs and the probed `total` duration. -/

/-- The cursor loop of `detect_nonsilent_segments`: walk the silence list,
emitting `(cursor, start)` whenever `start > cursor` and
`start - cursor >= min_segment`, advancing `cursor = max(cursor, end)`; returns
the emitted segments together with the final cursor. -/
def segLoop (min_segment : ℚ) (cursor : ℚ) : List (ℚ × ℚ) → List (ℚ × ℚ) × ℚ
  | [] => ([], cursor)
  | (s, e) :: rest =>
      let next := segLoop min_segment (max cursor e) rest
      if cursor < s ∧ min_segment ≤ s - cursor then ((cursor, s) :: next.1, next.2) else next

/-- Model of `detect_nonsilent_segments`: the silence complement against the total
duration, with the trailing segment `(cursor, total)` appended when
`total > cursor` and `total - cursor >= min_segment`. -/
def detect_nonsilent_segments (silences : List (ℚ × ℚ)) (total : ℚ) (min_segment : ℚ) :
    List (ℚ × ℚ) :=
  let r := segLoop min_segment 0 silences
  r.1 ++ (if r.2 < total ∧ min_segment ≤ total - r.2 then [(r.2, total)] else [])

/-! ## Platinum-tier marker selection (`build_personalized_video`, platinum branch) -/

/-- Python `str.split(",")` on the character list. -/
def splitComma : List Char → List (List Char)
  | [] => [[]]
  | c :: rest =>
      if c == ',' then [] :: splitComma rest
      else
        match splitComma rest with
        | [] => [[c]]
        | g :: gs => (c :: g) :: gs

/-- Python `str.strip()`: drop leading and trailing whitespace. -/
def pyStripWs (l : List Char) : List Char :=
  ((l.dropWhile Char.isWhitespace).reverse.dropWhile Char.isWhitespace).reverse

/-- Model of the comprehension keeping each stripped nonempty piece of
`platinum_placeholders.split(",")`,
defaulting to `["NAME1"]` when empty. -/
def parse_placeholders (s : String) : List String :=
  let ps := ((splitComma s.data).map (fun l => String.mk (pyStripWs l))).filter (fun p => p ≠ "")
  if ps.isEmpty then ["NAME1"] else ps

/-- Platinum marker selection: filter detected non-silent segments to those of
duration at most `platinum_max_placeholder_seconds`; fail when fewer qualify
than there are placeholders, otherwise keep the first `target_count`. -/
def platinum_marker_segments (placeholders : List String) (segments : List (ℚ × ℚ))
    (platinum_max_placeholder_seconds : ℚ) : Except String (List (ℚ × ℚ)) :=
  let target_count := placeholders.length
  let markers := segments.filter (fun p => p.2 - p.1 ≤ platinum_max_placeholder_seconds)
  if markers.length < target_count then
    .error "Platinum mode expected more placeholder segments than detected"
  else
    .ok (markers.take target_count)

/-! ## Output naming (`safe_slug` and the output path of `build_personalized_video`) -/

/-- A character matched by the regex class `[A-Za-z0-9_-]`. -/
def pySlugChar (c : Char) : Bool := c.isAlpha || c.isDigit || c == '_' || c == '-'

/-- Model of the regex substitution replacing each maximal run of
non-slug characters by a single underscore (`inRun` tracks whether the
previous character was part of such a run). -/
def collapseAux : Bool → List Char → List Char
  | _, [] => []
  | inRun, c :: rest =>
      if pySlugChar c then c :: collapseAux false rest
      else if inRun then collapseAux true rest
      else '_' :: collapseAux true rest

/-- Python `str.strip("_")`: drop leading and trailing underscores. -/
def stripUnderscoreEnds (l : List Char) : List Char :=
  ((l.dropWhile (· == '_')).reverse.dropWhile (· == '_')).reverse

/-- Model of `safe_slug`: collapse non-slug-character runs of the stripped name to
single underscores, strip underscores at both ends, fall back to `"person"`
when empty. -/
def safe_slug (name : String) : String :=
  let slug := collapseAux false (pyStripWs name.data)
  let stripped := stripUnderscoreEnds slug
  if stripped.isEmpty then "person" else String.mk stripped

/-- The output path chosen by `build_personalized_video`:
`out_dir` joined with the slug of the person name, a dot, and `output_ext`, with
`output_ext = "mp3" if insert_mode == "silver" else "mp4"` (the `out_dir`
component is common to all recipients and omitted). -/
def output_filename (person_name insert_mode : String) : String :=
  safe_slug person_name ++ "." ++ (if insert_mode = "silver" then "mp3" else "mp4")

/-! ## Time-stretch stage decomposition (`build_atempo_filter`) -/

/-- The halving loop: while `remaining` exceeds `2.0`, append a `2.0` stage
and halve `remaining`;
returning the appended stage factors and the final `remaining`. -/
def atempoLoop1 (remaining : ℚ) : List ℚ × ℚ :=
  if h : 2 < remaining then
    let next := atempoLoop1 (remaining / 2)
    ((2 : ℚ) :: next.1, next.2)
  else ([], remaining)
termination_by (⌈remaining⌉).toNat
decreasing_by
  have h1 : remaining / 2 ≤ remaining - 1 := by linarith
  have h2 : ⌈remaining / 2⌉ ≤ ⌈remaining - 1⌉ := Int.ceil_le_ceil h1
  have h3 : ⌈remaining - 1⌉ = ⌈remaining⌉ - 1 := Int.ceil_sub_one remaining
  have h5 : (0 : ℤ) < ⌈remaining / 2⌉ := Int.ceil_pos.mpr (by linarith)
  omega

/-- The doubling loop: while `remaining` is below `0.5`, append a `0.5` stage
and divide `remaining` by `0.5`.
The `0 < remaining` conjunct is a totality guard only: `build_atempo_filter`
reaches this loop with a positive `remaining`, on which the guard is inert. -/
def atempoLoop2 (remaining : ℚ) : List ℚ × ℚ :=
  if h : 0 < remaining ∧ remaining < 1/2 then
    let next := atempoLoop2 (remaining / (1/2))
    ((1/2 : ℚ) :: next.1, next.2)
  else ([], remaining)
termination_by (⌈remaining⁻¹⌉).toNat
decreasing_by
  obtain ⟨hpos, hlt⟩ := h
  have hinv : (2 : ℚ) < remaining⁻¹ := by
    rw [lt_inv_comm₀ (by norm_num) hpos]
    linarith
  have hrw : (remaining / (1/2))⁻¹ = remaining⁻¹ / 2 := by
    field_simp
  have h1 : remaining⁻¹ / 2 ≤ remaining⁻¹ - 1 := by linarith
  have h2 : ⌈remaining⁻¹ / 2⌉ ≤ ⌈remaining⁻¹ - 1⌉ := Int.ceil_le_ceil h1
  have h3 : ⌈remaining⁻¹ - 1⌉ = ⌈remaining⁻¹⌉ - 1 := Int.ceil_sub_one remaining⁻¹
  have h5 : (0 : ℤ) < ⌈remaining⁻¹ / 2⌉ := Int.ceil_pos.mpr (by linarith)
  rw [hrw]
  omega

/-- Model of `build_atempo_filter` at the level of the chained `atempo` stage factors
(the source renders these as the string `"atempo=f1,atempo=f2,..."`): non-positive
speed yields the single no-op stage `1.0`; otherwise the halving loop, the
doubling loop, and the final residual stage. -/
def build_atempo_stages (speed : ℚ) : List ℚ :=
  if speed ≤ 0 then [1]
  else
    let r1 := atempoLoop1 speed
    let r2 := atempoLoop2 r1.2
    r1.1 ++ r2.1 ++ [r2.2]

/-! ## Name audio cache key (`name_audio_cache_key`) -/

/-- Round-half-even to an integer, as Python's float formatting does. -/
def roundHalfEven (x : ℚ) : ℤ :=
  let f := ⌊x⌋
  if x - f < 1/2 then f else if 1/2 < x - f then f + 1 else if f % 2 = 0 then f else f + 1

/-- Left-pad a (< 1000) numeral to three digits. -/
def pad3 (n : ℕ) : String :=
  if n < 10 then "00" ++ toString n else if n < 100 then "0" ++ toString n else toString n

/-- Python three-decimal float formatting: the value rounded half-even at the
third decimal, rendered with exactly three decimals. -/
def fmt3 (q : ℚ) : String :=
  let n := roundHalfEven (q * 1000)
  (if q < 0 then "-" else "") ++ toString (n.natAbs / 1000) ++ "." ++ pad3 (n.natAbs % 1000)

/-- The inputs `name_audio_cache_key` depends on.  The Python `x or ""`
coalescing on the string parameters is reflected by taking the coalesced
strings directly; `voice_hash` stands for `file_hash(voice_sample)` when the
sample exists and `""` otherwise (the file hashing itself is the engine's). -/
structure CacheKeyArgs where
  text_template : String
  lang : String
  tts_provider : String
  tts_cmd : String
  elevenlabs_voice_id : String
  elevenlabs_model_id : String
  elevenlabs_speed : Option ℚ
  voice_hash : String

/-- The speed component: empty when the speed is `None`, otherwise the speed
formatted to three decimals. -/
def speed_component : Option ℚ → String
  | none => ""
  | some s => fmt3 s

/-- Model of `name_audio_cache_key`: the pipe-join of `[provider, lang, template, cmd,
voice_id, model_id, speed, voice_hash])`. -/
def name_audio_cache_key (a : CacheKeyArgs) : String :=
  a.tts_provider ++ "|" ++ a.lang ++ "|" ++ a.text_template ++ "|" ++ a.tts_cmd ++ "|" ++
    a.elevenlabs_voice_id ++ "|" ++ a.elevenlabs_model_id ++ "|" ++
    speed_component a.elevenlabs_speed ++ "|" ++ a.voice_hash

/-! ## First speech segment (`detect_first_speech_segment`)

The ffmpeg `silencedetect` stderr lines are abstracted as the parsed list of
`silence_start` / `silence_end` events. -/

/-- One parsed `silencedetect` event: a `silence_start` (when `isStart`) or
`silence_end` marker at timestamp `ts`. -/
structure SilenceEvent where
  isStart : Bool
  ts : ℚ
deriving DecidableEq

/-- Ordering events by timestamp, as `events.sort(key=lambda e: e[1])` does. -/
def eventLE (a b : SilenceEvent) : Prop := a.ts ≤ b.ts

instance : DecidableRel eventLE := fun a b => inferInstanceAs (Decidable (a.ts ≤ b.ts))

instance : IsTotal SilenceEvent eventLE := ⟨fun a b => le_total a.ts b.ts⟩

instance : IsTrans SilenceEvent eventLE := ⟨fun _ _ _ h h2 => le_trans h h2⟩

/-- The first `silence_end` timestamp in the list, `0.0` when there is none
(the Python loop leaves `speech_start = 0.0` unassigned in that case). -/
def first_silence_end_ts (l : List SilenceEvent) : ℚ :=
  match l.find? (fun e => !e.isStart) with
  | some e => e.ts
  | none => 0

/-- The derived `speech_start`: `0.0`, unless the earliest event is a `silence_start`
within `0.05` of time `0.0`, in which case the first `silence_end` timestamp. -/
def speech_start_of (sorted : List SilenceEvent) : ℚ :=
  match sorted with
  | [] => 0
  | e :: _ => if e.isStart = true ∧ |e.ts - 0| < 5/100 then first_silence_end_ts sorted else 0

/-- Model of `detect_first_speech_segment` on the parsed event list: `None` on an empty
report; otherwise sort events by timestamp (stably, as Python's sort does),
derive `speech_start`, take the first `silence_start` strictly after
`speech_start + 0.02` as `speech_end` (`None` if there is none), and return
`(speech_start, speech_end)` unless `speech_end <= speech_start`. -/
def detect_first_speech_segment (events : List SilenceEvent) : Option (ℚ × ℚ) :=
  if events.isEmpty then none
  else
    let sorted := List.insertionSort eventLE events
    let speech_start := speech_start_of sorted
    match sorted.find? (fun e => e.isStart && decide (speech_start + 2/100 < e.ts)) with
    | none => none
    | some e => if e.ts ≤ speech_start then none else some (speech_start, e.ts)

/-! ## Helper lemmas -/

/-- Unfolding lemma: `eventLE` is a timestamp comparison. -/
theorem eventLE_iff (a b : SilenceEvent) : eventLE a b ↔ a.ts ≤ b.ts := Iff.rfl

/-- On a nonempty trial list, the loop's result is the detection output of one
of the trials. -/
theorem trialLoop_mem (det : ℚ → ℚ → List (ℚ × ℚ)) (m : ℕ) :
    ∀ ts : List (ℚ × ℚ), ts ≠ [] → ∃ t ∈ ts, trialLoop det m ts = det t.1 t.2
  | [], h => absurd rfl h
  | [t], _ => ⟨t, List.mem_singleton_self t, rfl⟩
  | t :: t2 :: ts, _ => by
      by_cases h : m ≤ (det t.1 t.2).length
      · exact ⟨t, List.mem_cons_self .., by simp [trialLoop, h]⟩
      · obtain ⟨u, hu, hres⟩ := trialLoop_mem det m (t2 :: ts) (by simp)
        exact ⟨u, List.mem_cons_of_mem t hu, by simp [trialLoop, h, hres]⟩

/-- Invariant of the silence-complement cursor loop: the cursor never
decreases, the emitted segments are pairwise ordered and disjoint, start at or
after the initial cursor, are at least `min_segment` long, end at or before
the final cursor, and every emitted end is some silence start. -/
theorem segLoop_spec (m : ℚ) :
    ∀ (silences : List (ℚ × ℚ)) (cursor : ℚ),
      (∀ p ∈ silences, p.1 ≤ p.2) →
      cursor ≤ (segLoop m cursor silences).2 ∧
      List.Pairwise (fun a b : ℚ × ℚ => a.2 ≤ b.1) (segLoop m cursor silences).1 ∧
      ∀ q ∈ (segLoop m cursor silences).1,
        cursor ≤ q.1 ∧ m ≤ q.2 - q.1 ∧ q.2 ≤ (segLoop m cursor silences).2 ∧
        ∃ p ∈ silences, q.2 = p.1
  | [], cursor, _ => by simp [segLoop]
  | (s, e) :: rest, cursor, h => by
    have hse : s ≤ e := h (s, e) (List.mem_cons_self ..)
    have hrest : ∀ p ∈ rest, p.1 ≤ p.2 := fun p hp => h p (List.mem_cons_of_mem _ hp)
    obtain ⟨ih1, ih2, ih3⟩ := segLoop_spec m rest (max cursor e) hrest
    have hcm : cursor ≤ (segLoop m (max cursor e) rest).2 := le_trans (le_max_left ..) ih1
    have hem : e ≤ (segLoop m (max cursor e) rest).2 := le_trans (le_max_right ..) ih1
    by_cases hg : cursor < s ∧ m ≤ s - cursor
    · simp only [segLoop, if_pos hg]
      refine ⟨hcm, ?_, ?_⟩
      · refine List.Pairwise.cons (fun q hq => ?_) ih2
        exact le_trans hse (le_trans (le_max_right ..) (ih3 q hq).1)
      · intro q hq
        rcases List.mem_cons.mp hq with hq | hq
        · subst hq
          exact ⟨le_refl _, hg.2, le_trans hse hem,
            ⟨(s, e), List.mem_cons_self .., rfl⟩⟩
        · obtain ⟨h1, h2, h3, p, hp, hp2⟩ := ih3 q hq
          exact ⟨le_trans (le_max_left ..) h1, h2, h3, p, List.mem_cons_of_mem _ hp, hp2⟩
    · simp only [segLoop, if_neg hg]
      refine ⟨hcm, ih2, fun q hq => ?_⟩
      obtain ⟨h1, h2, h3, p, hp, hp2⟩ := ih3 q hq
      exact ⟨le_trans (le_max_left ..) h1, h2, h3, p, List.mem_cons_of_mem _ hp, hp2⟩

/-- For a well-formed silence report (each interval within `[0, total]` with
start at most end), `detect_nonsilent_segments` returns pairwise ordered
disjoint segments inside `[0, total]`, each at least `min_segment` long. -/
theorem detect_nonsilent_spec (silences : List (ℚ × ℚ)) (total m : ℚ)
    (h : ∀ p ∈ silences, 0 ≤ p.1 ∧ p.1 ≤ p.2 ∧ p.2 ≤ total) :
    List.Pairwise (fun a b : ℚ × ℚ => a.2 ≤ b.1)
      (detect_nonsilent_segments silences total m) ∧
    ∀ q ∈ detect_nonsilent_segments silences total m,
      0 ≤ q.1 ∧ m ≤ q.2 - q.1 ∧ q.2 ≤ total := by
  obtain ⟨h1, h2, h3⟩ := segLoop_spec m silences 0 (fun p hp => (h p hp).2.1)
  unfold detect_nonsilent_segments
  constructor
  · refine (List.pairwise_append).mpr ⟨h2, ?_, ?_⟩
    · split
      · exact List.pairwise_singleton ..
      · exact List.Pairwise.nil
    · intro a ha b hb
      split at hb
      · rw [List.mem_singleton] at hb
        subst hb
        exact (h3 a ha).2.2.1
      · simp at hb
  · intro q hq
    rcases List.mem_append.mp hq with hq | hq
    · obtain ⟨hq1, hq2, _, p, hp, hp2⟩ := h3 q hq
      exact ⟨hq1, hq2, hp2 ▸ le_trans (h p hp).2.1 (h p hp).2.2⟩
    · split at hq
      · rw [List.mem_singleton] at hq
        subst hq
        rename_i hcond
        exact ⟨h1, hcond.2, le_refl _⟩
      · simp at hq

/-! ## C1 -/

/-- C1, counterexample: with `split_silence_dur = 0.06` the second and third
ladder trials use the clamped pairs `(db+5, 0.08)` and `(db+10, 0.05)`, not
`(db+5, dur*0.66) = (db+5, 0.0396)` and `(db+10, dur*0.5) = (db+10, 0.03)` as
the claim states. -/
theorem c1_counterexample :
    split_trials (-40) (6/100) = [(-40, 6/100), (-35, 2/25), (-30, 1/20)] ∧
    (2/25 : ℚ) ≠ (6/100) * (66/100) ∧ (1/20 : ℚ) ≠ (6/100) * (1/2) := by
  norm_num [split_trials]

/-- C1 (amended): when the first silence split at the configured `(db, dur)`
yields fewer segments than needed, detection is retried with exactly the
stricter pairs `(db+5, max(0.08, dur*0.66))` and then
`(db+10, max(0.05, dur*0.5))`, in that order, stopping at the first attempt
whose segment count is at least the number of missing names. -/
theorem c1_ladder_order (det : ℚ → ℚ → List (ℚ × ℚ)) (db dur : ℚ) (m : ℕ) :
    trialLoop det m (split_trials db dur) =
      if m ≤ (det db dur).length then det db dur
      else if m ≤ (det (db + 5) (max (8/100) (dur * (66/100)))).length then
        det (db + 5) (max (8/100) (dur * (66/100)))
      else det (db + 10) (max (5/100) (dur * (1/2))) := by
  simp only [split_trials, trialLoop]

/-! ## C2 -/

/-- C2: if every ladder trial yields fewer segments than there are missing
names, `ensure_name_clips_batch_tts` raises (models `BatchSplitError`) and
creates no cache entry (the returned entry list is the set of writes, and the
raise precedes the per-name extraction loop in the source); moreover any
successful run assigns segments to the missing names exactly in their original
order, never permuting the name-to-segment mapping. -/
theorem c2_all_trials_short (cached : String → Bool) (names : List String)
    (det : ℚ → ℚ → List (ℚ × ℚ)) (db dur : ℚ) :
    ((∀ t ∈ split_trials db dur,
        (det t.1 t.2).length < (names.filter (fun n => !cached n)).length) →
      ensure_name_clips_batch cached names det db dur =
        .error "Batch TTS split found fewer segments than names") ∧
    (∀ entries, ensure_name_clips_batch cached names det db dur = .ok entries →
      entries.map Prod.fst = names.filter (fun n => !cached n)) := by
  unfold ensure_name_clips_batch
  by_cases hmiss : (names.filter (fun n => !cached n)).isEmpty
  · refine ⟨fun h => ?_, fun entries hok => ?_⟩
    · have h1 := h (db, dur) (by simp [split_trials])
      rw [List.isEmpty_iff] at hmiss
      simp [hmiss] at h1
    · rw [List.isEmpty_iff] at hmiss
      simp only [hmiss] at hok ⊢
      simp at hok
      simp [← hok]
  · refine ⟨fun h => ?_, fun entries hok => ?_⟩
    · obtain ⟨t, ht, hres⟩ := trialLoop_mem det
        (names.filter (fun n => !cached n)).length (split_trials db dur) (by simp [split_trials])
      rw [if_neg (by simpa using hmiss)]
      rw [hres, if_pos (h t ht)]
    · rw [if_neg (by simpa using hmiss)] at hok
      by_cases hshort :
          (trialLoop det (names.filter (fun n => !cached n)).length
            (split_trials db dur)).length < (names.filter (fun n => !cached n)).length
      · simp [hshort] at hok
      · rw [if_neg hshort] at hok
        have hentries := Except.ok.inj hok
        rw [← hentries]
        exact List.map_fst_zip _ _ (le_of_not_lt hshort)

/-- C2, witness: one uncached name, a detector finding no segments at any
trial. -/
theorem c2_all_trials_short_witness :
    ensure_name_clips_batch (fun _ => false) ["a"] (fun _ _ => []) (-40) (18/100) =
      .error "Batch TTS split found fewer segments than names" :=
  (c2_all_trials_short (fun _ => false) ["a"] (fun _ _ => []) (-40) (18/100)).1
    (by intro t ht; simp)

/-! ## C3 -/

/-- C3, counterexample: the distinct recipient names `"A B"` and `"A.B"` have
the same slug `"A_B"`, and `build_personalized_video` appends no hash to the
output filename, so both resolve to the same output path `A_B.mp3`. -/
theorem c3_counterexample :
    output_filename "A B" "silver" = "A_B.mp3" ∧
    output_filename "A.B" "silver" = "A_B.mp3" ∧
    ("A B" : String) ≠ "A.B" := by
  refine ⟨by decide, by decide, by decide⟩

/-- C3 (amended): for every recipient name and tier, the output filename is
deterministic — exactly the slug of the recipient name with a tier-dependent
extension (`mp3` for Silver, `mp4` for the video tiers) — but no hash is ever
appended, so two distinct recipient names with equal slugs resolve to the
same output path. -/
theorem c3_output_naming (n1 n2 mode : String) :
    (safe_slug n1 = safe_slug n2 → output_filename n1 mode = output_filename n2 mode) ∧
    output_filename n1 "silver" = safe_slug n1 ++ ".mp3" ∧
    (mode ≠ "silver" → output_filename n1 mode = safe_slug n1 ++ ".mp4") := by
  refine ⟨fun h => ?_, ?_, fun h => ?_⟩
  · unfold output_filename
    rw [h]
  · unfold output_filename
    rw [if_pos rfl, String.append_assoc]
    rfl
  · unfold output_filename
    rw [if_neg h, String.append_assoc]
    rfl

/-- C3, witness: the colliding pair `"A B"` / `"A.B"` in a video tier. -/
theorem c3_output_naming_witness :
    output_filename "A B" "gold" = output_filename "A.B" "gold" ∧
    output_filename "A B" "gold" = safe_slug "A B" ++ ".mp4" :=
  ⟨(c3_output_naming "A B" "A.B" "gold").1 (by decide),
    (c3_output_naming "A B" "A.B" "gold").2.2 (by decide)⟩

/-! ## C4 -/

/-- C4, counterexample: a detected segment of `0.10` s with the default cap
`0.50` and guard `0.08`.  Capping then guard-trimming gives `0.02`, which is
at most `50` ms, so the claim mandates a `FitError`; the code instead floors
the result at `0.12` and succeeds with a slot of `0.12` s, which also differs
from the claimed cap-minus-guard value. -/
theorem c4_counterexample :
    gold_fit_slot 0 (1/10) (1/2) (8/100) = Except.ok (12/100 : ℚ) ∧
    ((1/10 : ℚ) - 8/100) ≤ 5/100 ∧ (12/100 : ℚ) ≠ (1/10 : ℚ) - 8/100 := by
  refine ⟨?_, by norm_num, by norm_num⟩
  norm_num [gold_fit_slot, gold_target_dur]

/-- C4 (amended): in Gold mode with a detected first speech segment, the
target slot duration equals the segment length capped to
`gold_max_name_seconds`, reduced by the (nonnegative part of the) end guard,
and then floored at `0.12` s; because of that floor the `<= 50` ms
degenerate-slot check never fires, so this step never fails. -/
theorem c4_gold_slot (speech_start speech_end gold_max_name_seconds gold_end_guard_seconds : ℚ) :
    gold_fit_slot speech_start speech_end gold_max_name_seconds gold_end_guard_seconds =
      Except.ok (max (12/100)
        (min (max 0 (speech_end - speech_start)) gold_max_name_seconds -
          max 0 gold_end_guard_seconds)) := by
  simp only [gold_fit_slot, gold_target_dur]
  have hcap : (if gold_max_name_seconds < max 0 (speech_end - speech_start)
      then gold_max_name_seconds else max 0 (speech_end - speech_start)) =
      min (max 0 (speech_end - speech_start)) gold_max_name_seconds := by
    rcases lt_or_le gold_max_name_seconds (max 0 (speech_end - speech_start)) with h | h
    · rw [if_pos h, min_eq_right h.le]
    · rw [if_neg (not_lt.mpr h), min_eq_left h]
  rw [hcap, if_neg ?_]
  have h12 := le_max_left (12/100 : ℚ)
    (min (max 0 (speech_end - speech_start)) gold_max_name_seconds - max 0 gold_end_guard_seconds)
  intro hc
  linarith

/-! ## C10 -/

/-- C10: for every silence report and total duration (well-formed, as the
engine's `silencedetect`/`ffprobe` produce: each interval within
`[0, total]`, start at most end) and every positive `min_segment`, the
segment list returned by `detect_nonsilent_segments` is ordered by start
time, pairwise disjoint, contained in `[0, total]`, and every returned
segment has length at least `min_segment`. -/
theorem c10_nonsilent_segment_invariants (silences : List (ℚ × ℚ)) (total min_segment : ℚ)
    (hm : 0 < min_segment)
    (h : ∀ p ∈ silences, 0 ≤ p.1 ∧ p.1 ≤ p.2 ∧ p.2 ≤ total) :
    List.Pairwise (fun a b : ℚ × ℚ => a.2 ≤ b.1)
      (detect_nonsilent_segments silences total min_segment) ∧
    List.Pairwise (fun a b : ℚ × ℚ => a.1 < b.1)
      (detect_nonsilent_segments silences total min_segment) ∧
    ∀ q ∈ detect_nonsilent_segments silences total min_segment,
      0 ≤ q.1 ∧ q.1 < q.2 ∧ q.2 ≤ total ∧ min_segment ≤ q.2 - q.1 := by
  obtain ⟨hpair, hmem⟩ := detect_nonsilent_spec silences total min_segment h
  have hlt : ∀ q ∈ detect_nonsilent_segments silences total min_segment, q.1 < q.2 :=
    fun q hq => by have := (hmem q hq).2.1; linarith
  refine ⟨hpair, ?_, fun q hq => ?_⟩
  · refine hpair.imp_of_mem (fun {a b} ha _ hr => ?_)
    exact lt_of_lt_of_le (hlt a ha) hr
  · exact ⟨(hmem q hq).1, hlt q hq, (hmem q hq).2.2, (hmem q hq).2.1⟩

/-- C10, witness: a single silence `(1, 2)` in a clip of total duration `3`
with `min_segment = 1/2` (the detected segments are `[(0,1), (2,3)]`). -/
theorem c10_nonsilent_segment_witness :
    List.Pairwise (fun a b : ℚ × ℚ => a.2 ≤ b.1)
      (detect_nonsilent_segments [(1, 2)] 3 (1/2)) :=
  (c10_nonsilent_segment_invariants [(1, 2)] 3 (1/2) (by norm_num)
    (by intro p hp; rw [List.mem_singleton] at hp; subst hp; norm_num)).1

/-- Congruence: `List.find?` only depends on the predicate's values on the list. -/
theorem find?_congr {α : Type} (p q : α → Bool) :
    ∀ l : List α, (∀ x ∈ l, p x = q x) → l.find? p = l.find? q
  | [], _ => rfl
  | a :: t, h => by
    have ha := h a (List.mem_cons_self ..)
    by_cases hpa : p a = true
    · rw [List.find?_cons_of_pos _ hpa, List.find?_cons_of_pos _ (ha ▸ hpa)]
    · rw [List.find?_cons_of_neg _ (by simpa using hpa),
        List.find?_cons_of_neg _ (by simp [← ha]; simpa using hpa)]
      exact find?_congr p q t (fun x hx => h x (List.mem_cons_of_mem _ hx))

/-- In a list sorted by timestamp, the first event found satisfying a
predicate has the least timestamp among all satisfying events. -/
theorem find?_sorted_min (p : SilenceEvent → Bool) :
    ∀ l : List SilenceEvent, List.Pairwise eventLE l →
      ∀ e, l.find? p = some e → ∀ x ∈ l, p x = true → e.ts ≤ x.ts
  | [], _, e, h => by simp [List.find?] at h
  | a :: t, hp, e, h => by
    by_cases hpa : p a = true
    · rw [List.find?_cons_of_pos _ hpa] at h
      have hea : a = e := by injection h
      subst hea
      intro x hx hpx
      rcases List.mem_cons.mp hx with hx | hx
      · subst hx
        exact le_refl _
      · exact (List.pairwise_cons.mp hp).1 x hx
    · rw [List.find?_cons_of_neg _ (by simpa using hpa)] at h
      intro x hx hpx
      rcases List.mem_cons.mp hx with hx | hx
      · subst hx
        exact absurd hpx hpa
      · exact find?_sorted_min p t (List.pairwise_cons.mp hp).2 e h x hx hpx

/-! ## C5 -/

/-- C5, counterexample: the event list
`[silence_start 0.0, silence_end 1.2, silence_start 3.0]` (the spec's own
second example) contains a silence interval whose start `3.0` does not touch
time `0`, yet `detect_first_speech_segment` returns `(1.2, 3.0)` — not
`(0, firstSilenceStart)` for either the first reported silence start `0.0`
or the non-touching one `3.0`. -/
theorem c5_counterexample :
    detect_first_speech_segment [⟨true, 0⟩, ⟨false, 6/5⟩, ⟨true, 3⟩] = some (6/5, 3) ∧
    (∃ e ∈ ([⟨true, 0⟩, ⟨false, 6/5⟩, ⟨true, 3⟩] : List SilenceEvent),
      e.isStart = true ∧ 5/100 ≤ e.ts) ∧
    some ((6 : ℚ)/5, (3 : ℚ)) ≠ some (0, 0) ∧
    some ((6 : ℚ)/5, (3 : ℚ)) ≠ some (0, 3) := by
  refine ⟨?_, ⟨⟨true, 3⟩, by simp, rfl, by norm_num⟩, by norm_num, by norm_num⟩
  norm_num [detect_first_speech_segment, List.insertionSort, List.orderedInsert, eventLE_iff,
    speech_start_of, first_silence_end_ts, List.find?]

/-- C5 (amended): for every silence-event list containing at least one
`silence_start` and in which no `silence_start` lies within `0.05` s of time
`0`, `detect_first_speech_segment` returns `(0, firstSilenceStart)`, where
`firstSilenceStart` is the smallest reported silence-start timestamp. -/
theorem c5_first_speech_from_zero (events : List SilenceEvent)
    (hex : ∃ e ∈ events, e.isStart = true)
    (hfar : ∀ e ∈ events, e.isStart = true → 5/100 ≤ e.ts) :
    ∃ t, detect_first_speech_segment events = some (0, t) ∧
      (∃ e ∈ events, e.isStart = true ∧ e.ts = t) ∧
      (∀ e ∈ events, e.isStart = true → t ≤ e.ts) := by
  obtain ⟨e0, he0, he0s⟩ := hex
  have hne : events ≠ [] := by
    intro h
    subst h
    simp at he0
  have hperm : ∀ x : SilenceEvent, x ∈ List.insertionSort eventLE events ↔ x ∈ events :=
    fun x => (List.perm_insertionSort eventLE events).mem_iff
  have hsort : List.Pairwise eventLE (List.insertionSort eventLE events) :=
    List.sorted_insertionSort eventLE events
  have hstart : speech_start_of (List.insertionSort eventLE events) = 0 := by
    cases hs : List.insertionSort eventLE events with
    | nil => rfl
    | cons a rest =>
      rw [speech_start_of, if_neg]
      rintro ⟨h1, h2⟩
      have hmem : a ∈ events := (hperm a).1 (hs ▸ List.mem_cons_self ..)
      have hge := hfar a hmem h1
      rw [sub_zero, abs_of_nonneg (by linarith)] at h2
      linarith
  have hcong : (List.insertionSort eventLE events).find?
        (fun e => e.isStart && decide ((0 : ℚ) + 2/100 < e.ts)) =
      (List.insertionSort eventLE events).find? (fun e => e.isStart) := by
    apply find?_congr
    intro x hx
    cases hxs : x.isStart with
    | false => simp [hxs]
    | true =>
      have h5 : 5/100 ≤ x.ts := hfar x ((hperm x).1 hx) hxs
      simp only [hxs, Bool.true_and]
      exact decide_eq_true (by linarith)
  have hsome : ((List.insertionSort eventLE events).find? (fun e => e.isStart)).isSome := by
    rw [List.find?_isSome]
    exact ⟨e0, (hperm e0).2 he0, he0s⟩
  obtain ⟨efound, hef⟩ := Option.isSome_iff_exists.mp hsome
  have hefp : efound.isStart = true := List.find?_some hef
  have hefm : efound ∈ events := (hperm efound).1 (List.mem_of_find?_eq_some hef)
  have hmin : ∀ x ∈ events, x.isStart = true → efound.ts ≤ x.ts := fun x hx hxs =>
    find?_sorted_min _ _ hsort efound hef x ((hperm x).2 hx) hxs
  have hts : 5/100 ≤ efound.ts := hfar efound hefm hefp
  refine ⟨efound.ts, ?_, ⟨efound, hefm, hefp, rfl⟩, hmin⟩
  rw [detect_first_speech_segment, if_neg (by simpa [List.isEmpty_iff] using hne)]
  simp only [hstart, hcong, hef]
  rw [if_neg (by linarith)]

/-- C5, witness: events `[start 1, end 2, start 3]` — no start touches `0`,
and the result is `(0, 1)`. -/
theorem c5_first_speech_witness :
    ∃ t, detect_first_speech_segment [⟨true, 1⟩, ⟨false, 2⟩, ⟨true, 3⟩] = some (0, t) ∧
      (∃ e ∈ ([⟨true, 1⟩, ⟨false, 2⟩, ⟨true, 3⟩] : List SilenceEvent),
        e.isStart = true ∧ e.ts = t) ∧
      (∀ e ∈ ([⟨true, 1⟩, ⟨false, 2⟩, ⟨true, 3⟩] : List SilenceEvent),
        e.isStart = true → t ≤ e.ts) :=
  c5_first_speech_from_zero [⟨true, 1⟩, ⟨false, 2⟩, ⟨true, 3⟩]
    ⟨⟨true, 1⟩, by simp, rfl⟩
    (by
      intro e he hs
      simp only [List.mem_cons, List.not_mem_nil, or_false] at he
      rcases he with h | h | h
      all_goals (subst h; norm_num))

/-! ## C6 -/

/-- C6: in Platinum mode with the placeholder string `"NAME1,NAME2"` (parsed
to `["NAME1", "NAME2"]`), over the segments detected on a well-formed silence
report: when at least two detected segments have duration at most
`platinum_max_placeholder_seconds`, the marker plan is exactly the first two
qualifying segments, in strictly ascending time order; when fewer than two
qualify, the operation fails with an error instead of proceeding with fewer
insertions. -/
theorem c6_platinum_marker_plan (silences : List (ℚ × ℚ)) (total maxSec : ℚ)
    (h : ∀ p ∈ silences, 0 ≤ p.1 ∧ p.1 ≤ p.2 ∧ p.2 ≤ total) :
    (2 ≤ ((detect_nonsilent_segments silences total (8/100)).filter
        (fun p => p.2 - p.1 ≤ maxSec)).length →
      ∃ ms, platinum_marker_segments (parse_placeholders "NAME1,NAME2")
          (detect_nonsilent_segments silences total (8/100)) maxSec = .ok ms ∧
        ms.length = 2 ∧ List.Pairwise (fun a b : ℚ × ℚ => a.1 < b.1) ms) ∧
    (((detect_nonsilent_segments silences total (8/100)).filter
        (fun p => p.2 - p.1 ≤ maxSec)).length < 2 →
      platinum_marker_segments (parse_placeholders "NAME1,NAME2")
        (detect_nonsilent_segments silences total (8/100)) maxSec =
        .error "Platinum mode expected more placeholder segments than detected") := by
  have hpl : parse_placeholders "NAME1,NAME2" = ["NAME1", "NAME2"] := by decide
  obtain ⟨hpair, hmem⟩ := detect_nonsilent_spec silences total (8/100) h
  have hlt : List.Pairwise (fun a b : ℚ × ℚ => a.1 < b.1)
      (detect_nonsilent_segments silences total (8/100)) := by
    refine hpair.imp_of_mem (fun {a b} ha _ hr => ?_)
    have := (hmem a ha).2.1
    linarith
  constructor
  · intro h2
    refine ⟨((detect_nonsilent_segments silences total (8/100)).filter
        (fun p => p.2 - p.1 ≤ maxSec)).take 2, ?_, ?_, ?_⟩
    · rw [platinum_marker_segments, hpl]
      simp only [List.length_cons, List.length_nil]
      rw [if_neg (by omega)]
    · rw [List.length_take]
      omega
    · exact List.Pairwise.sublist
        ((List.take_sublist 2 _).trans (List.filter_sublist _)) hlt
  · intro h2
    rw [platinum_marker_segments, hpl]
    simp only [List.length_cons, List.length_nil]
    rw [if_pos (by omega)]

/-- C6, witness: silences `[(1, 3/2), (2, 5/2)]` in a clip of duration `3`
with `platinum_max_placeholder_seconds = 1` give three qualifying segments,
so the plan succeeds with two ascending markers. -/
theorem c6_platinum_marker_witness :
    ∃ ms, platinum_marker_segments (parse_placeholders "NAME1,NAME2")
        (detect_nonsilent_segments [(1, 3/2), (2, 5/2)] 3 (8/100)) 1 = .ok ms ∧
      ms.length = 2 ∧ List.Pairwise (fun a b : ℚ × ℚ => a.1 < b.1) ms :=
  (c6_platinum_marker_plan [(1, 3/2), (2, 5/2)] 3 1 (by
      intro p hp
      rcases List.mem_cons.mp hp with h | h
      · subst h; norm_num
      · rw [List.mem_singleton] at h; subst h; norm_num)).1
    (by norm_num [detect_nonsilent_segments, segLoop, List.filter])

/-- The halving loop emits only `2.0` stages, multiplies back to its input,
and leaves a positive residual of at most `2`. -/
theorem atempoLoop1_spec (q : ℚ) : 0 < q →
    (∀ x ∈ (atempoLoop1 q).1, x = 2) ∧
    (atempoLoop1 q).1.prod * (atempoLoop1 q).2 = q ∧
    0 < (atempoLoop1 q).2 ∧ (atempoLoop1 q).2 ≤ 2 := by
  induction q using atempoLoop1.induct with
  | case1 q h ih =>
    intro hq
    obtain ⟨ih1, ih2, ih3, ih4⟩ := ih (by linarith)
    rw [atempoLoop1, dif_pos h]
    refine ⟨?_, ?_, ih3, ih4⟩
    · intro x hx
      rcases List.mem_cons.mp hx with hx | hx
      · exact hx
      · exact ih1 x hx
    · simp only [List.prod_cons]
      rw [mul_assoc, ih2]
      ring
  | case2 q h =>
    intro hq
    rw [atempoLoop1, dif_neg h]
    exact ⟨by simp, by simp, hq, by linarith [not_lt.mp h]⟩

/-- The doubling loop emits only `0.5` stages, multiplies back to its input,
and on an input in `(0, 2]` leaves a residual in `[1/2, 2]`. -/
theorem atempoLoop2_spec (q : ℚ) : 0 < q → q ≤ 2 →
    (∀ x ∈ (atempoLoop2 q).1, x = 1/2) ∧
    (atempoLoop2 q).1.prod * (atempoLoop2 q).2 = q ∧
    1/2 ≤ (atempoLoop2 q).2 ∧ (atempoLoop2 q).2 ≤ 2 := by
  induction q using atempoLoop2.induct with
  | case1 q h ih =>
    intro hq hq2
    have h2 : q / (1/2) = 2 * q := by norm_num [div_eq_mul_inv]; ring
    obtain ⟨ih1, ih2, ih3, ih4⟩ := ih (by rw [h2]; linarith [h.2]) (by rw [h2]; linarith [h.2])
    rw [atempoLoop2, dif_pos h]
    refine ⟨?_, ?_, ih3, ih4⟩
    · intro x hx
      rcases List.mem_cons.mp hx with hx | hx
      · exact hx
      · exact ih1 x hx
    · simp only [List.prod_cons]
      rw [mul_assoc, ih2, h2]
      ring
  | case2 q h =>
    intro hq hq2
    rw [atempoLoop2, dif_neg h]
    have : ¬ q < 1/2 := fun hc => h ⟨hq, hc⟩
    exact ⟨by simp, by simp, not_lt.mp this, hq2⟩

/-! ## C7 -/

/-- C7: for every positive speed, `build_atempo_filter` chains stages each
within `[0.5, 2.0]` whose product equals the speed exactly in this rational
model (the source only rounds the final stage's decimal rendering, hence
"within floating tolerance"), with the final stage carrying the residual —
speed `3.0` decomposes into stage `2.0` followed by stage `1.5`; for every
non-positive speed the result is the single no-op stage `1.0`. -/
theorem c7_atempo_stage_chain (speed : ℚ) :
    (0 < speed →
      (∀ s ∈ build_atempo_stages speed, 1/2 ≤ s ∧ s ≤ 2) ∧
      (build_atempo_stages speed).prod = speed) ∧
    (speed ≤ 0 → build_atempo_stages speed = [1]) ∧
    build_atempo_stages 3 = [2, 3/2] := by
  refine ⟨fun hpos => ?_, fun hneg => ?_, ?_⟩
  · obtain ⟨l1, l2, l3, l4⟩ := atempoLoop1_spec speed hpos
    obtain ⟨m1, m2, m3, m4⟩ := atempoLoop2_spec (atempoLoop1 speed).2 l3 l4
    rw [build_atempo_stages, if_neg (not_le.mpr hpos)]
    constructor
    · intro s hs
      rcases List.mem_append.mp hs with hs | hs
      · rcases List.mem_append.mp hs with hs | hs
        · rw [l1 s hs]; norm_num
        · rw [m1 s hs]; norm_num
      · rw [List.mem_singleton] at hs
        subst hs
        exact ⟨m3, m4⟩
    · rw [List.prod_append, List.prod_append, List.prod_singleton, mul_assoc, m2, l2]
  · rw [build_atempo_stages, if_pos hneg]
  · have h1 : atempoLoop1 3 = ([2], 3/2) := by
      rw [atempoLoop1]
      norm_num
      rw [atempoLoop1]
      norm_num
    have h2 : atempoLoop2 (3/2) = ([], 3/2) := by
      rw [atempoLoop2]
      norm_num
    rw [build_atempo_stages]
    norm_num [h1, h2]

/-- C7, witness: the stage chain of speed `3` multiplies back to `3` and a
non-positive speed yields the single no-op stage. -/
theorem c7_atempo_stage_witness :
    (build_atempo_stages 3).prod = 3 ∧ build_atempo_stages (-1) = [1] :=
  ⟨((c7_atempo_stage_chain 3).1 (by norm_num)).2,
    (c7_atempo_stage_chain (-1)).2.1 (by norm_num)⟩

/-- Strings with equal character data are equal. -/
theorem string_ext_of_data {s t : String} (h : s.data = t.data) : s = t := by
  cases s
  cases t
  simp_all

/-- The character data of the cache key, fully right-associated. -/
theorem key_data (a : CacheKeyArgs) :
    (name_audio_cache_key a).data =
      a.tts_provider.data ++ '|' :: (a.lang.data ++ '|' :: (a.text_template.data ++
        '|' :: (a.tts_cmd.data ++ '|' :: (a.elevenlabs_voice_id.data ++
        '|' :: (a.elevenlabs_model_id.data ++
        '|' :: ((speed_component a.elevenlabs_speed).data ++
        '|' :: a.voice_hash.data)))))) := by
  simp [name_audio_cache_key, String.data_append, List.append_assoc,
    show ("|" : String).data = ['|'] from rfl]

/-- Changing only the provider changes the key (contrapositive form). -/
theorem key_inj_provider (a : CacheKeyArgs) (x : String)
    (h : name_audio_cache_key {a with tts_provider := x} = name_audio_cache_key a) :
    x = a.tts_provider := by
  have hd := congrArg String.data h
  rw [key_data, key_data] at hd
  exact string_ext_of_data (List.append_cancel_right hd)

/-- Changing only the language changes the key (contrapositive form). -/
theorem key_inj_lang (a : CacheKeyArgs) (x : String)
    (h : name_audio_cache_key {a with lang := x} = name_audio_cache_key a) :
    x = a.lang := by
  have hd := congrArg String.data h
  rw [key_data, key_data] at hd
  have h1 := List.append_cancel_left hd
  injection h1 with _ h2
  exact string_ext_of_data (List.append_cancel_right h2)

/-- Changing only the text template changes the key (contrapositive form). -/
theorem key_inj_template (a : CacheKeyArgs) (x : String)
    (h : name_audio_cache_key {a with text_template := x} = name_audio_cache_key a) :
    x = a.text_template := by
  have hd := congrArg String.data h
  rw [key_data, key_data] at hd
  have h1 := List.append_cancel_left hd
  injection h1 with _ h2
  have h3 := List.append_cancel_left h2
  injection h3 with _ h4
  exact string_ext_of_data (List.append_cancel_right h4)

/-- Changing only the TTS command changes the key (contrapositive form). -/
theorem key_inj_cmd (a : CacheKeyArgs) (x : String)
    (h : name_audio_cache_key {a with tts_cmd := x} = name_audio_cache_key a) :
    x = a.tts_cmd := by
  have hd := congrArg String.data h
  rw [key_data, key_data] at hd
  have h1 := List.append_cancel_left hd
  injection h1 with _ h2
  have h3 := List.append_cancel_left h2
  injection h3 with _ h4
  have h5 := List.append_cancel_left h4
  injection h5 with _ h6
  exact string_ext_of_data (List.append_cancel_right h6)

/-- Changing only the voice id changes the key (contrapositive form). -/
theorem key_inj_voice_id (a : CacheKeyArgs) (x : String)
    (h : name_audio_cache_key {a with elevenlabs_voice_id := x} = name_audio_cache_key a) :
    x = a.elevenlabs_voice_id := by
  have hd := congrArg String.data h
  rw [key_data, key_data] at hd
  have h1 := List.append_cancel_left hd
  injection h1 with _ h2
  have h3 := List.append_cancel_left h2
  injection h3 with _ h4
  have h5 := List.append_cancel_left h4
  injection h5 with _ h6
  have h7 := List.append_cancel_left h6
  injection h7 with _ h8
  exact string_ext_of_data (List.append_cancel_right h8)

/-- Changing only the model id changes the key (contrapositive form). -/
theorem key_inj_model_id (a : CacheKeyArgs) (x : String)
    (h : name_audio_cache_key {a with elevenlabs_model_id := x} = name_audio_cache_key a) :
    x = a.elevenlabs_model_id := by
  have hd := congrArg String.data h
  rw [key_data, key_data] at hd
  have h1 := List.append_cancel_left hd
  injection h1 with _ h2
  have h3 := List.append_cancel_left h2
  injection h3 with _ h4
  have h5 := List.append_cancel_left h4
  injection h5 with _ h6
  have h7 := List.append_cancel_left h6
  injection h7 with _ h8
  have h9 := List.append_cancel_left h8
  injection h9 with _ h10
  exact string_ext_of_data (List.append_cancel_right h10)

/-- Changing the speed changes the key whenever its rendered component
changes (contrapositive form). -/
theorem key_inj_speed (a : CacheKeyArgs) (x : Option ℚ)
    (h : name_audio_cache_key {a with elevenlabs_speed := x} = name_audio_cache_key a) :
    speed_component x = speed_component a.elevenlabs_speed := by
  have hd := congrArg String.data h
  rw [key_data, key_data] at hd
  have h1 := List.append_cancel_left hd
  injection h1 with _ h2
  have h3 := List.append_cancel_left h2
  injection h3 with _ h4
  have h5 := List.append_cancel_left h4
  injection h5 with _ h6
  have h7 := List.append_cancel_left h6
  injection h7 with _ h8
  have h9 := List.append_cancel_left h8
  injection h9 with _ h10
  have h11 := List.append_cancel_left h10
  injection h11 with _ h12
  exact string_ext_of_data (List.append_cancel_right h12)

/-- Changing only the voice-sample content hash changes the key
(contrapositive form). -/
theorem key_inj_voice_hash (a : CacheKeyArgs) (x : String)
    (h : name_audio_cache_key {a with voice_hash := x} = name_audio_cache_key a) :
    x = a.voice_hash := by
  have hd := congrArg String.data h
  rw [key_data, key_data] at hd
  have h1 := List.append_cancel_left hd
  injection h1 with _ h2
  have h3 := List.append_cancel_left h2
  injection h3 with _ h4
  have h5 := List.append_cancel_left h4
  injection h5 with _ h6
  have h7 := List.append_cancel_left h6
  injection h7 with _ h8
  have h9 := List.append_cancel_left h8
  injection h9 with _ h10
  have h11 := List.append_cancel_left h10
  injection h11 with _ h12
  have h13 := List.append_cancel_left h12
  injection h13 with _ h14
  exact string_ext_of_data h14

/-! ## C8 -/

/-- C8, counterexample: two calls differing only in speed — `1.0` versus
`1.0004` — produce the same key, because the speed is rendered with
`f"..3f"` three-decimal formatting and both render as `"1.000"`. -/
theorem c8_counterexample :
    name_audio_cache_key ⟨"t", "hi", "elevenlabs", "", "v", "m", some 1, ""⟩ =
      name_audio_cache_key ⟨"t", "hi", "elevenlabs", "", "v", "m", some (10004/10000), ""⟩ ∧
    (some (1 : ℚ)) ≠ some (10004/10000 : ℚ) := by
  constructor
  · have h1 : fmt3 1 = "1.000" := by
      norm_num [fmt3, roundHalfEven, pad3]
      decide
    have h2 : fmt3 (10004/10000) = "1.000" := by
      norm_num [fmt3, roundHalfEven, pad3]
      decide
    simp [name_audio_cache_key, speed_component, h1, h2]
  · norm_num

/-- C8 (amended): `name_audio_cache_key` is deterministic — identical
`(template, lang, provider, cmd, voice-sample content hash, voice id,
model id, speed)` yield the same key string — and changing any one of the
seven string fields alone changes the key; changing the speed alone changes
the key exactly when its rendered three-decimal component changes (speeds
whose `f"..3f"` renderings coincide, such as `1.0` and `1.0004`, collide). -/
theorem c8_cache_key_determinism_and_sensitivity :
    (∀ a b : CacheKeyArgs, a = b → name_audio_cache_key a = name_audio_cache_key b) ∧
    (∀ (a : CacheKeyArgs) (x : String), x ≠ a.text_template →
      name_audio_cache_key {a with text_template := x} ≠ name_audio_cache_key a) ∧
    (∀ (a : CacheKeyArgs) (x : String), x ≠ a.lang →
      name_audio_cache_key {a with lang := x} ≠ name_audio_cache_key a) ∧
    (∀ (a : CacheKeyArgs) (x : String), x ≠ a.tts_provider →
      name_audio_cache_key {a with tts_provider := x} ≠ name_audio_cache_key a) ∧
    (∀ (a : CacheKeyArgs) (x : String), x ≠ a.tts_cmd →
      name_audio_cache_key {a with tts_cmd := x} ≠ name_audio_cache_key a) ∧
    (∀ (a : CacheKeyArgs) (x : String), x ≠ a.elevenlabs_voice_id →
      name_audio_cache_key {a with elevenlabs_voice_id := x} ≠ name_audio_cache_key a) ∧
    (∀ (a : CacheKeyArgs) (x : String), x ≠ a.elevenlabs_model_id →
      name_audio_cache_key {a with elevenlabs_model_id := x} ≠ name_audio_cache_key a) ∧
    (∀ (a : CacheKeyArgs) (x : String), x ≠ a.voice_hash →
      name_audio_cache_key {a with voice_hash := x} ≠ name_audio_cache_key a) ∧
    (∀ (a : CacheKeyArgs) (x : Option ℚ),
      speed_component x ≠ speed_component a.elevenlabs_speed →
      name_audio_cache_key {a with elevenlabs_speed := x} ≠ name_audio_cache_key a) :=
  ⟨fun _ _ h => by rw [h],
    fun a x hx hk => hx (key_inj_template a x hk),
    fun a x hx hk => hx (key_inj_lang a x hk),
    fun a x hx hk => hx (key_inj_provider a x hk),
    fun a x hx hk => hx (key_inj_cmd a x hk),
    fun a x hx hk => hx (key_inj_voice_id a x hk),
    fun a x hx hk => hx (key_inj_model_id a x hk),
    fun a x hx hk => hx (key_inj_voice_hash a x hk),
    fun a x hx hk => hx (key_inj_speed a x hk)⟩

/-- C8, witness: changing the template from `"t1"` to `"t2"` changes the key. -/
theorem c8_cache_key_witness :
    name_audio_cache_key ⟨"t2", "hi", "gtts", "", "", "", none, ""⟩ ≠
      name_audio_cache_key ⟨"t1", "hi", "gtts", "", "", "", none, ""⟩ :=
  (c8_cache_key_determinism_and_sensitivity).2.1
    ⟨"t1", "hi", "gtts", "", "", "", none, ""⟩ "t2" (by decide)

/-! ## C9 -/

/-- C9, counterexample: Silver tier with detected first-speech segment
`(0.0, 0.4)` and `silver_replace_seconds = 0.45`.  The detected segment is at
least `0.12` s long, so it is used as the replaced slot unchanged: the slot is
`0.4` s, not at least `0.45` s as the claim states. -/
theorem c9_counterexample :
    silver_slot (some (0, 2/5)) 5 (45/100) = (0, 2/5) ∧
    ¬ (45/100 ≤ (2/5 : ℚ) - 0) := by
  norm_num [silver_slot]

/-- C9 (amended): for Silver tier on a 5-second base clip with a detected
first-speech segment `(0.0, 0.4)` and `silver_replace_seconds = 0.45`, the
replaced name slot is exactly the detected segment (`0.4` s —
`silver_replace_seconds` only applies when no segment is detected or the
segment is shorter than `0.12` s), and the final output duration equals the
name-clip duration plus the configured gap plus `(5.0 - 0.4)` seconds of
retained base audio. -/
theorem c9_silver_slot_and_duration (silver_gap_seconds : ℚ) (hgap : 0 ≤ silver_gap_seconds) :
    silver_slot (some (0, 2/5)) 5 (45/100) = (0, 2/5) ∧
    ∀ name_dur : ℚ, silver_output_duration name_dur silver_gap_seconds 5 (2/5) =
      name_dur + silver_gap_seconds + (5 - 2/5) := by
  constructor
  · norm_num [silver_slot]
  · intro name_dur
    unfold silver_output_duration
    rcases eq_or_lt_of_le hgap with h | h
    · rw [if_neg (by rw [← h]; exact lt_irrefl 0)]
      linarith
    · rw [if_pos h]

/-- C9, witness: gap `0.12`, name-clip duration `1`. -/
theorem c9_silver_witness :
    silver_slot (some (0, 2/5)) 5 (45/100) = (0, 2/5) ∧
    silver_output_duration 1 (12/100) 5 (2/5) = 1 + 12/100 + (5 - 2/5) :=
  ⟨(c9_silver_slot_and_duration (12/100) (by norm_num)).1,
    (c9_silver_slot_and_duration (12/100) (by norm_num)).2 1⟩

end Dove
